import Mathlib

/-!
Verification of the color-contrast analysis pipeline of the
`workspace_colors` repository.

The development shallowly embeds the Python sources:

* `src/scripts/contrast_rows.py` — sRGB linearization, relative luminance,
  WCAG contrast ratio, bar-region detection, background/text estimation;
* `src/check_contrast.py` — the legacy batch orchestrator (WCAG OK/LOW/BAD
  scale, try/except with sentinel `-1` contrast on analysis failure);
* `src/scripts/check_contrast.py` — the later batch orchestrator
  (GOOD/MID/BAD scale, JSON classification store flushed every
  `BATCH_SIZE` themes).

Python floats are modeled as real numbers (`ℝ`) where genuine real
arithmetic occurs (the transfer-function power `** 2.4`), and as rationals
(`ℚ`) for the purely arithmetic pixel statistics.  `np.median` of an empty
array yields NaN; NaN-valued colors are modeled as `Option.none`.
External effects (screen capture, the PIL image load, scipy labeling) are
modeled by explicit parameters, as described at each definition.
-/

/-! ## Luminance and contrast math, from `src/scripts/contrast_rows.py` -/

/-- Embeds `srgb_to_linear` (contrast_rows.py lines 43-45):
`np.where(u <= 0.03928, u / 12.92, ((u + 0.055) / 1.055) ** 2.4)`. -/
noncomputable def srgb_to_linear (u : ℝ) : ℝ :=
  if u ≤ 0.03928 then u / 12.92 else ((u + 0.055) / 1.055) ^ (2.4 : ℝ)

/-- Embeds `np.clip(x, 0.0, 1.0)` applied channelwise in
`relative_luminance` (contrast_rows.py line 50). -/
noncomputable def clip01 (x : ℝ) : ℝ := min (max x 0) 1

/-- Embeds `relative_luminance` (contrast_rows.py lines 48-52): channels are
divided by 255, clipped to `[0,1]`, linearized, and combined with the fixed
WCAG weights 0.2126 / 0.7152 / 0.0722. -/
noncomputable def relative_luminance (c : ℝ × ℝ × ℝ) : ℝ :=
  0.2126 * srgb_to_linear (clip01 (c.1 / 255)) +
  0.7152 * srgb_to_linear (clip01 (c.2.1 / 255)) +
  0.0722 * srgb_to_linear (clip01 (c.2.2 / 255))

/-- Embeds `contrast_ratio` (contrast_rows.py lines 55-59):
`hi, lo = (la, lb) if la >= lb else (lb, la); (hi + 0.05) / (lo + 0.05)`. -/
noncomputable def contrastRatio (a b : ℝ × ℝ × ℝ) : ℝ :=
  let la := relative_luminance a
  let lb := relative_luminance b
  let hi := if lb ≤ la then la else lb
  let lo := if lb ≤ la then lb else la
  (hi + 0.05) / (lo + 0.05)

/-- Embeds the legacy `relative_luminance(r, g, b)` of `src/check_contrast.py`
lines 32-37, which takes integer channels and does not clip. -/
noncomputable def relative_luminance_legacy (c : ℕ × ℕ × ℕ) : ℝ :=
  let channel : ℕ → ℝ := fun v =>
    let u : ℝ := (v : ℝ) / 255
    if u ≤ 0.03928 then u / 12.92 else ((u + 0.055) / 1.055) ^ (2.4 : ℝ)
  0.2126 * channel c.1 + 0.7152 * channel c.2.1 + 0.0722 * channel c.2.2

/-- Embeds the legacy `contrast_ratio` of `src/check_contrast.py` lines 40-46:
`(max l1 l2 + 0.05) / (min l1 l2 + 0.05)`. -/
noncomputable def contrastRatioLegacy (a b : ℕ × ℕ × ℕ) : ℝ :=
  let l1 := relative_luminance_legacy a
  let l2 := relative_luminance_legacy b
  (max l1 l2 + 0.05) / (min l1 l2 + 0.05)

/-- Embeds `get_status` of `src/scripts/check_contrast.py` lines 23-30
(the empirically recalibrated GOOD/MID/BAD scale). -/
noncomputable def get_status (rt : ℝ) : String :=
  if 2.0 ≤ rt then "GOOD" else if 1.5 ≤ rt then "MID" else "BAD"

/-- Embeds `get_status` of `src/check_contrast.py` lines 49-56
(the WCAG OK/LOW/BAD scale). -/
noncomputable def get_status_wcag (rt : ℝ) : String :=
  if 4.5 ≤ rt then "OK" else if 3 ≤ rt then "LOW" else "BAD"

/-- An 8-bit RGB color: every channel is at most 255. -/
def valid8 (c : ℕ × ℕ × ℕ) : Prop := c.1 ≤ 255 ∧ c.2.1 ≤ 255 ∧ c.2.2 ≤ 255

instance (c : ℕ × ℕ × ℕ) : Decidable (valid8 c) := by unfold valid8; infer_instance

/-- Cast an integer color to the real-valued color space of contrast_rows. -/
noncomputable def castPix (c : ℕ × ℕ × ℕ) : ℝ × ℝ × ℝ := ((c.1 : ℝ), (c.2.1 : ℝ), (c.2.2 : ℝ))

/-! ### Helper lemmas for the luminance bounds -/

lemma clip01_nonneg (x : ℝ) : 0 ≤ clip01 x := by
  unfold clip01
  have h : (0 : ℝ) ≤ max x 0 := le_max_right x 0
  exact le_min h zero_le_one

lemma clip01_le_one (x : ℝ) : clip01 x ≤ 1 := min_le_right _ 1

lemma srgb_to_linear_nonneg {u : ℝ} (hu : 0 ≤ u) : 0 ≤ srgb_to_linear u := by
  unfold srgb_to_linear
  split_ifs with h
  · positivity
  · apply Real.rpow_nonneg
    apply div_nonneg _ (by norm_num)
    linarith

lemma srgb_to_linear_le_one {u : ℝ} (hu0 : 0 ≤ u) (hu1 : u ≤ 1) :
    srgb_to_linear u ≤ 1 := by
  unfold srgb_to_linear
  split_ifs with h
  · rw [div_le_one (by norm_num)]
    linarith
  · have hbase0 : (0 : ℝ) ≤ (u + 0.055) / 1.055 := by
      apply div_nonneg _ (by norm_num)
      linarith
    have hbase1 : (u + 0.055) / 1.055 ≤ 1 := by
      rw [div_le_one (by norm_num)]
      linarith
    exact Real.rpow_le_one hbase0 hbase1 (by norm_num)

lemma relative_luminance_nonneg (c : ℝ × ℝ × ℝ) : 0 ≤ relative_luminance c := by
  unfold relative_luminance
  have h1 := srgb_to_linear_nonneg (clip01_nonneg (c.1 / 255))
  have h2 := srgb_to_linear_nonneg (clip01_nonneg (c.2.1 / 255))
  have h3 := srgb_to_linear_nonneg (clip01_nonneg (c.2.2 / 255))
  nlinarith

lemma relative_luminance_le_one (c : ℝ × ℝ × ℝ) : relative_luminance c ≤ 1 := by
  unfold relative_luminance
  have h1 := srgb_to_linear_le_one (clip01_nonneg (c.1 / 255)) (clip01_le_one (c.1 / 255))
  have h2 := srgb_to_linear_le_one (clip01_nonneg (c.2.1 / 255)) (clip01_le_one (c.2.1 / 255))
  have h3 := srgb_to_linear_le_one (clip01_nonneg (c.2.2 / 255)) (clip01_le_one (c.2.2 / 255))
  have g1 := srgb_to_linear_nonneg (clip01_nonneg (c.1 / 255))
  have g2 := srgb_to_linear_nonneg (clip01_nonneg (c.2.1 / 255))
  have g3 := srgb_to_linear_nonneg (clip01_nonneg (c.2.2 / 255))
  nlinarith

lemma relative_luminance_legacy_nonneg (c : ℕ × ℕ × ℕ) :
    0 ≤ relative_luminance_legacy c := by
  unfold relative_luminance_legacy
  have key : ∀ v : ℕ, 0 ≤ (fun v : ℕ =>
      let u : ℝ := (v : ℝ) / 255
      if u ≤ 0.03928 then u / 12.92 else ((u + 0.055) / 1.055) ^ (2.4 : ℝ)) v := by
    intro v
    simp only
    split_ifs with h
    · positivity
    · apply Real.rpow_nonneg
      positivity
  have h1 := key c.1
  have h2 := key c.2.1
  have h3 := key c.2.2
  simp only at h1 h2 h3
  nlinarith

lemma contrastRatio_ge_one_core {la lb : ℝ} (ha : 0 ≤ la) (hb : 0 ≤ lb) :
    1 ≤ ((if lb ≤ la then la else lb) + 0.05) / ((if lb ≤ la then lb else la) + 0.05) := by
  split_ifs with h
  · rw [le_div_iff₀ (by linarith)]
    linarith
  · rw [le_div_iff₀ (by linarith)]
    linarith

lemma contrastRatio_symm_core (la lb : ℝ) :
    ((if lb ≤ la then la else lb) + 0.05) / ((if lb ≤ la then lb else la) + 0.05) =
    ((if la ≤ lb then lb else la) + 0.05) / ((if la ≤ lb then la else lb) + 0.05) := by
  rcases le_or_lt lb la with h | h
  · rw [if_pos h, if_pos h]
    rcases le_or_lt la lb with h2 | h2
    · have heq : la = lb := le_antisymm h2 h
      rw [if_pos h2, if_pos h2, heq]
    · rw [if_neg (not_le.mpr h2), if_neg (not_le.mpr h2)]
  · rw [if_neg (not_le.mpr h), if_neg (not_le.mpr h), if_pos h.le, if_pos h.le]

/-! ## Claim theorems for the pure color math -/

/-- Claim C5: `relative_luminance` maps every color into `[0,1]`, sends pure
white `(255,255,255)` to exactly `1.0` and pure black `(0,0,0)` to exactly
`0.0` (real-number model of the Python float arithmetic). -/
theorem c5_relative_luminance_range :
    (∀ c : ℝ × ℝ × ℝ, 0 ≤ relative_luminance c ∧ relative_luminance c ≤ 1) ∧
    relative_luminance ((255 : ℝ), (255 : ℝ), (255 : ℝ)) = 1 ∧
    relative_luminance ((0 : ℝ), (0 : ℝ), (0 : ℝ)) = 0 := by
  refine ⟨fun c => ⟨relative_luminance_nonneg c, relative_luminance_le_one c⟩, ?_, ?_⟩
  · have hclip : clip01 ((255 : ℝ) / 255) = 1 := by
      unfold clip01; norm_num
    have hlin : srgb_to_linear 1 = 1 := by
      unfold srgb_to_linear
      rw [if_neg (by norm_num)]
      have : ((1 : ℝ) + 0.055) / 1.055 = 1 := by norm_num
      rw [this, Real.one_rpow]
    unfold relative_luminance
    simp only [hclip, hlin]
    norm_num
  · have hclip : clip01 ((0 : ℝ) / 255) = 0 := by
      unfold clip01; norm_num
    have hlin : srgb_to_linear 0 = 0 := by
      unfold srgb_to_linear
      rw [if_pos (by norm_num)]
      norm_num
    unfold relative_luminance
    simp only [hclip, hlin]
    norm_num

/-- Claim C4: for valid 8-bit RGB colors, `contrast_ratio` is symmetric,
equals `1.0` on equal arguments, and is always at least `1.0`. -/
theorem c4_contrast_ratio_algebra (a b : ℕ × ℕ × ℕ) (ha : valid8 a) (hb : valid8 b) :
    contrastRatio (castPix a) (castPix b) = contrastRatio (castPix b) (castPix a) ∧
    contrastRatio (castPix a) (castPix a) = 1 ∧
    1 ≤ contrastRatio (castPix a) (castPix b) := by
  refine ⟨?_, ?_, ?_⟩
  · unfold contrastRatio
    exact contrastRatio_symm_core (relative_luminance (castPix a)) (relative_luminance (castPix b))
  · unfold contrastRatio
    simp only [le_refl, if_true]
    have hpos : 0 < relative_luminance (castPix a) + 0.05 := by
      have := relative_luminance_nonneg (castPix a)
      linarith
    field_simp
  · unfold contrastRatio
    exact contrastRatio_ge_one_core (relative_luminance_nonneg _) (relative_luminance_nonneg _)

/-- Witness for C4 at the concrete valid colors black and white. -/
theorem c4_contrast_ratio_algebra_witness :
    valid8 (0, 0, 0) ∧ valid8 (255, 255, 255) ∧
    (contrastRatio (castPix (0, 0, 0)) (castPix (255, 255, 255)) =
       contrastRatio (castPix (255, 255, 255)) (castPix (0, 0, 0)) ∧
     contrastRatio (castPix (0, 0, 0)) (castPix (0, 0, 0)) = 1 ∧
     1 ≤ contrastRatio (castPix (0, 0, 0)) (castPix (255, 255, 255))) :=
  ⟨by decide, by decide,
   c4_contrast_ratio_algebra (0, 0, 0) (255, 255, 255) (by decide) (by decide)⟩

/-- Claim C8: both status scales use inclusive lower bounds; a ratio exactly
at a threshold boundary (2.0, 1.5, 4.5, 3) maps to the upper tier. -/
theorem c8_status_thresholds :
    (∀ rt : ℝ, (get_status rt = "GOOD" ↔ 2 ≤ rt) ∧
      (get_status rt = "MID" ↔ 1.5 ≤ rt ∧ rt < 2) ∧
      (get_status rt = "BAD" ↔ rt < 1.5)) ∧
    (∀ rt : ℝ, (get_status_wcag rt = "OK" ↔ 4.5 ≤ rt) ∧
      (get_status_wcag rt = "LOW" ↔ 3 ≤ rt ∧ rt < 4.5) ∧
      (get_status_wcag rt = "BAD" ↔ rt < 3)) ∧
    get_status 2 = "GOOD" ∧ get_status 1.5 = "MID" ∧
    get_status_wcag 4.5 = "OK" ∧ get_status_wcag 3 = "LOW" := by
  refine ⟨?_, ?_, ?_, ?_, ?_, ?_⟩
  · intro rt
    unfold get_status
    split_ifs with h1 h2
    · exact ⟨⟨fun _ => by linarith, fun _ => rfl⟩,
        ⟨fun he => by simp at he, fun hc => (by linarith : False).elim⟩,
        ⟨fun he => by simp at he, fun hc => (by linarith : False).elim⟩⟩
    · exact ⟨⟨fun he => by simp at he, fun hc => (by linarith : False).elim⟩,
        ⟨fun _ => ⟨by linarith, by linarith⟩, fun _ => rfl⟩,
        ⟨fun he => by simp at he, fun hc => (by linarith : False).elim⟩⟩
    · exact ⟨⟨fun he => by simp at he, fun hc => (by linarith : False).elim⟩,
        ⟨fun he => by simp at he, fun hc => (by linarith : False).elim⟩,
        ⟨fun _ => by linarith, fun _ => rfl⟩⟩
  · intro rt
    unfold get_status_wcag
    split_ifs with h1 h2
    · exact ⟨⟨fun _ => by linarith, fun _ => rfl⟩,
        ⟨fun he => by simp at he, fun hc => (by linarith : False).elim⟩,
        ⟨fun he => by simp at he, fun hc => (by linarith : False).elim⟩⟩
    · exact ⟨⟨fun he => by simp at he, fun hc => (by linarith : False).elim⟩,
        ⟨fun _ => ⟨by linarith, by linarith⟩, fun _ => rfl⟩,
        ⟨fun he => by simp at he, fun hc => (by linarith : False).elim⟩⟩
    · exact ⟨⟨fun he => by simp at he, fun hc => (by linarith : False).elim⟩,
        ⟨fun he => by simp at he, fun hc => (by linarith : False).elim⟩,
        ⟨fun _ => by linarith, fun _ => rfl⟩⟩
  · unfold get_status
    rw [if_pos (by norm_num)]
  · unfold get_status
    rw [if_neg (by norm_num), if_pos (by norm_num)]
  · unfold get_status_wcag
    rw [if_pos (by norm_num)]
  · unfold get_status_wcag
    rw [if_neg (by norm_num), if_pos (by norm_num)]

/-! ## Region color estimator, from `src/scripts/contrast_rows.py` lines 133-184

Pixels are rational RGB triples (uint8 values cast through float32).
`np.median` of an empty selection is NaN; a NaN-valued color estimate is
modeled as `Option.none`.  The Python float constants 0.10, 0.12 and 0.06
act only through `int(0.10 * h)` etc., which agrees with rational floor
division for these percentages, so the integer slice bounds are embedded as
`h / 10`, `12 * h / 100` and `6 * w / 100`. -/

/-- A pixel: rational red, green, blue channel values. -/
abbrev Pix := ℚ × ℚ × ℚ

/-- A captured region: a list of pixel rows (the alpha channel, when
present in the capture, is dropped before any of the analysis below, as in
contrast_rows.py lines 147-153). -/
abbrev Region := List (List Pix)

/-- Embeds the Python slice `a[-n:]`: the last `min n (length a)` elements. -/
def takeLast {α : Type} (l : List α) (n : ℕ) : List α := l.drop (l.length - n)

/-- Embeds lines 142-145: clip `max(1, int(0.10 * h))` rows from the top and
bottom of the region (`row_rgba[clip_v:-clip_v, :, :]`). -/
def clipRegion (row : Region) : Region :=
  let clip_v := max 1 (row.length / 10)
  ((row.drop clip_v).take (row.length - 2 * clip_v))

/-- The width taken from the array shape (`h, w, c = row_rgba.shape`). -/
def widthOf (row : Region) : ℕ := (row.headD []).length

/-- Embeds lines 155-166: the border band, the concatenation of the first
`bt` rows, last `bt` rows, first `bl` columns and last `bl` columns of the
clipped region (overlapping corners are sampled repeatedly, as in the
source). -/
def borderBand (row : Region) : List Pix :=
  let A := clipRegion row
  let bt := max 1 (12 * A.length / 100)
  let bl := max 1 (6 * widthOf row / 100)
  (A.take bt).flatten ++ (takeLast A bt).flatten ++
    (A.map (fun r => r.take bl)).flatten ++ (A.map (fun r => takeLast r bl)).flatten

/-- Embeds `np.median` on a 1-D array: sort, then take the middle element
(odd length) or the mean of the two middle elements (even length). -/
def medianQ (l : List ℚ) : ℚ :=
  let s := l.insertionSort (· ≤ ·)
  if l.length % 2 = 1 then s.getD (l.length / 2) 0
  else (s.getD (l.length / 2 - 1) 0 + s.getD (l.length / 2) 0) / 2

/-- Per-channel median of a pixel list (`np.median(..., axis=0)`), `none`
when the list is empty (NaN in the source). -/
def medianPix (l : List Pix) : Option Pix :=
  if l.isEmpty then none
  else some (medianQ (l.map (fun p => p.1)),
             medianQ (l.map (fun p => p.2.1)),
             medianQ (l.map (fun p => p.2.2)))

/-- Embeds lines 169-172: the interior of the clipped region, excluding the
border band (`row_rgb[bt:h-bt, bl:w-bl, :]`), flattened to a pixel list. -/
def interiorPixels (row : Region) : List Pix :=
  let A := clipRegion row
  let bt := max 1 (12 * A.length / 100)
  let bl := max 1 (6 * widthOf row / 100)
  (((A.drop bt).take (A.length - 2 * bt)).map
    (fun r => (r.drop bl).take (widthOf row - 2 * bl))).flatten

/-- Squared Euclidean RGB distance; `d > 25.0` in the source is the strict
comparison `dist2 > 625` on squared distances. -/
def dist2 (p q : Pix) : ℚ :=
  (p.1 - q.1) ^ 2 + (p.2.1 - q.2.1) ^ 2 + (p.2.2 - q.2.2) ^ 2

/-- Embeds lines 174-176: interior pixels whose distance to the background
estimate strictly exceeds 25 (`inner[d > 25.0]`).  When the background
median is NaN (empty border), every comparison with NaN is false and the
selection is empty. -/
def farPixels (row : Region) : List Pix :=
  match medianPix (borderBand row) with
  | none => []
  | some bg => (interiorPixels row).filter (fun p => decide (625 < dist2 p bg))

/-- Embeds lines 178-181: the fallback `inner[np.argsort(d)[-max(50, n/200):]]`,
the `max 50 (n / 200)` interior pixels farthest from the background (sorted
ascending by distance, keeping the tail). -/
def fallbackPixels (row : Region) : List Pix :=
  match medianPix (borderBand row) with
  | none => []
  | some bg =>
      let inner := interiorPixels row
      takeLast (inner.insertionSort (fun p q => dist2 p bg ≤ dist2 q bg))
        (max 50 (inner.length / 200))

/-- Embeds lines 176-181: the pixel set whose median becomes the text
color: the thresholded set, or the farthest-pixel fallback when fewer than
50 pixels qualify. -/
def textPixels (row : Region) : List Pix :=
  if (farPixels row).length < 50 then fallbackPixels row else farPixels row

/-- Embeds `estimate_bg_and_text` (lines 133-184): the background estimate
is the per-channel border-band median, the text estimate the per-channel
median of the selected text pixels. -/
def estimate_bg_and_text (row : Region) : Option Pix × Option Pix :=
  (medianPix (borderBand row), medianPix (textPixels row))

/-! ### Helper lemmas about the estimator -/

lemma medianPix_eq_none_iff (l : List Pix) : medianPix l = none ↔ l = [] := by
  unfold medianPix
  constructor
  · intro h
    by_cases he : l.isEmpty
    · exact List.isEmpty_iff.mp he
    · rw [if_neg he] at h
      exact absurd h (by simp)
  · intro h
    rw [if_pos (by simp [h])]

lemma medianPix_isSome_iff (l : List Pix) : (medianPix l).isSome ↔ l ≠ [] := by
  constructor
  · intro h hnil
    rw [(medianPix_eq_none_iff l).mpr hnil] at h
    simp at h
  · intro h
    rw [Option.isSome_iff_ne_none]
    intro hn
    exact h ((medianPix_eq_none_iff l).mp hn)

lemma borderBand_nil_of_clip_nil {row : Region} (h : clipRegion row = []) :
    borderBand row = [] := by
  unfold borderBand
  rw [h]
  simp [takeLast]

lemma clipRegion_ne_nil_of_borderBand {row : Region} (h : borderBand row ≠ []) :
    clipRegion row ≠ [] := by
  intro hc
  exact h (borderBand_nil_of_clip_nil hc)

/-- Every interior row comes from a clipped-region row by dropping and
taking columns; if all border samples are empty, every clipped row is empty
and therefore so is every interior row. -/
lemma interiorPixels_nil_of_borderBand_nil {row : Region}
    (h : borderBand row = []) : interiorPixels row = [] := by
  unfold borderBand at h
  unfold interiorPixels
  rcases List.append_eq_nil.mp h with ⟨h12, h4⟩
  rcases List.append_eq_nil.mp h12 with ⟨h1x, h5⟩
  -- From h5: every clipped row truncated to the first `bl` columns is empty,
  -- and since `bl ≥ 1` this forces every clipped row to be empty.
  have hrows : ∀ r ∈ clipRegion row, r = [] := by
    intro r hr
    have hmem : r.take (max 1 (6 * widthOf row / 100)) ∈
        (clipRegion row).map (fun r => r.take (max 1 (6 * widthOf row / 100))) :=
      List.mem_map_of_mem _ hr
    have hempty : r.take (max 1 (6 * widthOf row / 100)) = [] := by
      have := (List.flatten_eq_nil_iff).mp h5
      exact this _ hmem
    rcases List.take_eq_nil_iff.mp hempty with h0 | h0
    · exact absurd h0 (by positivity)
    · exact h0
  apply List.flatten_eq_nil_iff.mpr
  intro l hl
  rcases List.mem_map.mp hl with ⟨r, hr, hre⟩
  have hr' : r ∈ clipRegion row :=
    List.mem_of_mem_drop (List.mem_of_mem_take hr)
  rw [← hre, hrows r hr']
  simp

lemma interior_sub_nonempty {row : Region} (h : interiorPixels row ≠ []) :
    borderBand row ≠ [] := by
  intro hb
  exact h (interiorPixels_nil_of_borderBand_nil hb)

lemma takeLast_ne_nil {α : Type} {l : List α} {n : ℕ} (hl : l ≠ []) (hn : 1 ≤ n) :
    takeLast l n ≠ [] := by
  unfold takeLast
  rw [ne_eq, List.drop_eq_nil_iff]
  push_neg
  have hlen : 1 ≤ l.length := List.length_pos.mpr hl
  omega

/-- The selected text-pixel set is nonempty whenever the interior is. -/
lemma textPixels_ne_nil {row : Region} (h : interiorPixels row ≠ []) :
    textPixels row ≠ [] := by
  unfold textPixels
  split_ifs with hlen
  · -- fallback branch
    unfold fallbackPixels
    have hb : borderBand row ≠ [] := interior_sub_nonempty h
    rcases ho : medianPix (borderBand row) with _ | bg
    · exact absurd ((medianPix_eq_none_iff _).mp ho) hb
    · simp only
      apply takeLast_ne_nil
      · rw [ne_eq, ← List.length_eq_zero]
        rw [List.length_insertionSort]
        rw [List.length_eq_zero]
        exact h
      · exact le_max_of_le_left (by norm_num)
  · -- thresholded branch: at least 50 pixels qualified
    intro hnil
    rw [hnil] at hlen
    simp at hlen

lemma textPixels_nil_of_interior_nil {row : Region} (h : interiorPixels row = []) :
    textPixels row = [] := by
  unfold textPixels farPixels fallbackPixels
  rcases ho : medianPix (borderBand row) with _ | bg
  · simp
  · simp [h, takeLast]

/-- Claim C10: the estimator only returns well-defined colors on large
enough regions.  A region of height at most 2 clips to nothing, making the
background estimate the median of an empty pixel set (`none` / NaN); an
empty interior likewise makes the text estimate the median of an empty
set; and conversely a well-defined background (resp. text) estimate
requires a nonempty clipped region (resp. interior). -/
theorem c10_estimator_requires_nonempty (row : Region) :
    (row.length ≤ 2 → clipRegion row = []) ∧
    (clipRegion row = [] → borderBand row = [] ∧ (estimate_bg_and_text row).1 = none) ∧
    (interiorPixels row = [] → textPixels row = [] ∧ (estimate_bg_and_text row).2 = none) ∧
    (∀ bg, (estimate_bg_and_text row).1 = some bg → clipRegion row ≠ []) ∧
    (∀ tx, (estimate_bg_and_text row).2 = some tx → interiorPixels row ≠ []) := by
  refine ⟨?_, ?_, ?_, ?_, ?_⟩
  · intro hle
    unfold clipRegion
    simp only
    rw [show row.length - 2 * max 1 (row.length / 10) = 0 by omega, List.take_zero]
  · intro hc
    have hb := borderBand_nil_of_clip_nil hc
    exact ⟨hb, by
      show medianPix (borderBand row) = none
      exact (medianPix_eq_none_iff _).mpr hb⟩
  · intro hi
    have ht := textPixels_nil_of_interior_nil hi
    exact ⟨ht, by
      show medianPix (textPixels row) = none
      exact (medianPix_eq_none_iff _).mpr ht⟩
  · intro bg hbg hc
    have hb := borderBand_nil_of_clip_nil hc
    have : medianPix (borderBand row) = none := (medianPix_eq_none_iff _).mpr hb
    rw [show (estimate_bg_and_text row).1 = medianPix (borderBand row) from rfl, this] at hbg
    exact absurd hbg (by simp)
  · intro tx htx hi
    have ht := textPixels_nil_of_interior_nil hi
    have : medianPix (textPixels row) = none := (medianPix_eq_none_iff _).mpr ht
    rw [show (estimate_bg_and_text row).2 = medianPix (textPixels row) from rfl, this] at htx
    exact absurd htx (by simp)

/-- A 2-row region used to exercise the degenerate-height case of C10. -/
def rowTwo : Region := [[((0 : ℚ), (0 : ℚ), (0 : ℚ))], [((0 : ℚ), (0 : ℚ), (0 : ℚ))]]

/-- Witness for C10: on a concrete 2-pixel-high region the clipped region is
empty and the background estimate is `none`. -/
theorem c10_estimator_requires_nonempty_witness :
    rowTwo.length ≤ 2 ∧ clipRegion rowTwo = [] ∧
    borderBand rowTwo = [] ∧ (estimate_bg_and_text rowTwo).1 = none := by
  have h := c10_estimator_requires_nonempty rowTwo
  have hc : clipRegion rowTwo = [] := h.1 (by decide)
  exact ⟨by decide, hc, (h.2.1 hc).1, (h.2.1 hc).2⟩

/-- Claim C7: the estimator returns the per-channel median of the border
band as background; classifies interior pixels farther than 25 (in RGB
distance) from it as foreground candidates; falls back to the top
`max 50 (n / 200)` farthest interior pixels when fewer than 50 qualify; and
returns the per-channel median of the resulting set, which is nonempty
whenever the interior is nonempty. -/
theorem c7_estimator_fallback (row : Region) :
    (estimate_bg_and_text row).1 = medianPix (borderBand row) ∧
    (∀ bg, medianPix (borderBand row) = some bg →
      farPixels row = (interiorPixels row).filter (fun p => decide (625 < dist2 p bg))) ∧
    textPixels row =
      (if (farPixels row).length < 50 then fallbackPixels row else farPixels row) ∧
    (∀ bg, medianPix (borderBand row) = some bg →
      fallbackPixels row =
        takeLast ((interiorPixels row).insertionSort (fun p q => dist2 p bg ≤ dist2 q bg))
          (max 50 ((interiorPixels row).length / 200))) ∧
    (interiorPixels row ≠ [] →
      textPixels row ≠ [] ∧ (estimate_bg_and_text row).2 = medianPix (textPixels row) ∧
      (estimate_bg_and_text row).2 ≠ none) := by
  refine ⟨rfl, ?_, rfl, ?_, ?_⟩
  · intro bg hbg
    unfold farPixels
    rw [hbg]
  · intro bg hbg
    unfold fallbackPixels
    rw [hbg]
  · intro hi
    have ht := textPixels_ne_nil hi
    refine ⟨ht, rfl, ?_⟩
    intro hnone
    exact ht ((medianPix_eq_none_iff _).mp hnone)

/-- A uniform 5x3 region used to exercise the nonemptiness guarantee of C7
(its single interior pixel triggers the farthest-pixel fallback). -/
def rowFive : Region :=
  List.replicate 5 (List.replicate 3 ((100 : ℚ), (100 : ℚ), (100 : ℚ)))

/-- Witness for C7: on a concrete uniform 5x3 region the interior is
nonempty, hence the text-pixel selection and the text estimate are too. -/
theorem c7_estimator_fallback_witness :
    interiorPixels rowFive ≠ [] ∧ textPixels rowFive ≠ [] ∧
    (estimate_bg_and_text rowFive).2 ≠ none := by
  have h := (c7_estimator_fallback rowFive).2.2.2.2 (by decide)
  exact ⟨by decide, h.1, h.2.2⟩

/-! ## Bar region detector, from `src/scripts/contrast_rows.py` lines 97-130

An image is a list of rows of uint8 RGB pixels.  `find_bar_boxes` thresholds
a per-pixel luminance proxy at 55, labels the 4-connected components of the
resulting mask, and keeps the bounding boxes of the components that pass
the area / aspect-ratio / height filters, sorted by their top edge.

`_label_components` (lines 62-94) produces the labeling either through
`scipy.ndimage.label` (4-connectivity by default) or through the pure
flood-fill fallback; both return an array assigning each bright pixel the
label of its 4-connected component.  The labeling is therefore modeled as
an explicit function together with the predicate `IsComponentLabeling`
stating exactly that contract, and `find_bar_boxes` is verified for every
labeling satisfying it. -/

/-- An image: rows of uint8 RGB pixels. -/
abbrev Img := List (List (ℕ × ℕ × ℕ))

/-- Array access `img[y, x]`; out-of-range coordinates read as black, which
is below every brightness threshold. -/
def pixelAt (img : Img) (p : ℕ × ℕ) : ℕ × ℕ × ℕ := (img.getD p.1 []).getD p.2 (0, 0, 0)

/-- The luminance proxy of line 102: `0.2126 r + 0.7152 g + 0.0722 b` on the
0-255 scale. -/
def lumProxy (c : ℕ × ℕ × ℕ) : ℚ :=
  (2126 * c.1 + 7152 * c.2.1 + 722 * c.2.2 : ℕ) / 10000

/-- The bright-pixel mask of line 105: `y > 55.0`. -/
def maskAt (img : Img) (p : ℕ × ℕ) : Bool := decide (55 < lumProxy (pixelAt img p))

/-- All in-range coordinates `(y, x)` of the image. -/
def coordsOf (img : Img) : List (ℕ × ℕ) :=
  (List.range img.length).flatMap
    (fun y => (List.range (img.getD y []).length).map (fun x => (y, x)))

/-- 4-neighborhood adjacency of grid coordinates. -/
def Adjacent (p q : ℕ × ℕ) : Prop :=
  (p.1 = q.1 ∧ (p.2 + 1 = q.2 ∨ q.2 + 1 = p.2)) ∨
  (p.2 = q.2 ∧ (p.1 + 1 = q.1 ∨ q.1 + 1 = p.1))

instance (p q : ℕ × ℕ) : Decidable (Adjacent p q) := by unfold Adjacent; infer_instance

/-- One step inside the bright mask: both endpoints bright and 4-adjacent. -/
def maskStep (img : Img) (p q : ℕ × ℕ) : Prop :=
  maskAt img p = true ∧ maskAt img q = true ∧ Adjacent p q

/-- `ConnIn img p q`: `q` is reachable from `p` by 4-adjacent steps through
bright pixels — i.e. `p` and `q` lie in the same 4-connected component of
the bright mask (reflexively). -/
def ConnIn (img : Img) : ℕ × ℕ → ℕ × ℕ → Prop := Relation.ReflTransGen (maskStep img)

/-- The contract of `_label_components` (contrast_rows.py lines 62-94):
labels are 0 exactly on dark pixels, bounded by `n`, constant on 4-adjacent
bright pixels, and equal labels mean 4-connectedness (each label marks one
component). -/
def IsComponentLabeling (img : Img) (labels : ℕ × ℕ → ℕ) (n : ℕ) : Prop :=
  (∀ p, labels p ≠ 0 ↔ maskAt img p = true) ∧
  (∀ p, labels p ≤ n) ∧
  (∀ p q, maskAt img p = true → maskAt img q = true → Adjacent p q → labels p = labels q) ∧
  (∀ p q, labels p = labels q → labels p ≠ 0 → ConnIn img p q)

/-- The `Box` dataclass of contrast_rows.py lines 23-40. -/
structure Box where
  x0 : ℕ
  y0 : ℕ
  x1 : ℕ
  y1 : ℕ
deriving DecidableEq, Repr

/-- Box width `x1 - x0`. -/
def Box.w (b : Box) : ℕ := b.x1 - b.x0

/-- Box height `y1 - y0`. -/
def Box.ht (b : Box) : ℕ := b.y1 - b.y0

/-- Box area `w * h`. -/
def Box.area (b : Box) : ℕ := b.w * b.ht

/-- Smallest element of a nonempty list of naturals (`xs.min()`). -/
def listMin : List ℕ → ℕ
  | [] => 0
  | a :: t => t.foldl Nat.min a

/-- Largest element of a nonempty list of naturals (`xs.max()`). -/
def listMax : List ℕ → ℕ
  | [] => 0
  | a :: t => t.foldl Nat.max a

/-- The bounding box of lines 114-116: `Box(xs.min(), ys.min(),
xs.max() + 1, ys.max() + 1)`. -/
def bboxOf (pts : List (ℕ × ℕ)) : Box :=
  { x0 := listMin (pts.map Prod.snd), y0 := listMin (pts.map Prod.fst),
    x1 := listMax (pts.map Prod.snd) + 1, y1 := listMax (pts.map Prod.fst) + 1 }

/-- The filters of lines 118-124: reject boxes with `area < 2000`, with
`w / max(1, h) < 2.5`, or with `h < 15`. -/
def keepBox (b : Box) : Bool :=
  !(decide (b.area < 2000)) &&
  !(decide ((b.w : ℚ) / ((max 1 b.ht : ℕ) : ℚ) < 5 / 2)) &&
  !(decide (b.ht < 15))

/-- Comparison by top edge, the sort key of line 129. -/
def boxLE (a b : Box) : Prop := a.y0 ≤ b.y0

instance : DecidableRel boxLE := fun a b => inferInstanceAs (Decidable (a.y0 ≤ b.y0))

instance : IsTotal Box boxLE := ⟨fun a b => Nat.le_total a.y0 b.y0⟩

instance : IsTrans Box boxLE := ⟨fun _ _ _ h1 h2 => Nat.le_trans h1 h2⟩

/-- The coordinates carrying the same label as `p` — under a valid labeling,
the 4-connected component of a bright pixel `p`. -/
def componentPts (img : Img) (labels : ℕ × ℕ → ℕ) (p : ℕ × ℕ) : List (ℕ × ℕ) :=
  (coordsOf img).filter (fun q => labels q == labels p)

/-- Embeds `find_bar_boxes` (lines 97-130) over a component labeling
`labels, n`: for every label `k` in `1..n` collect its pixels (skipping
labels with none, line 112-113), form the bounding box, apply the filters,
and sort the survivors by top edge. -/
def find_bar_boxes (img : Img) (labels : ℕ × ℕ → ℕ) (n : ℕ) : List Box :=
  let boxes := (List.range' 1 n).filterMap (fun k =>
    let pts := (coordsOf img).filter (fun q => labels q == k)
    if pts.isEmpty then none
    else if keepBox (bboxOf pts) then some (bboxOf pts) else none)
  boxes.insertionSort boxLE

/-! ### Detector helper lemmas -/

lemma mem_coordsOf {img : Img} {q : ℕ × ℕ} :
    q ∈ coordsOf img ↔ q.1 < img.length ∧ q.2 < (img.getD q.1 []).length := by
  unfold coordsOf
  rw [List.mem_flatMap]
  constructor
  · rintro ⟨y, hy, hq⟩
    rcases List.mem_map.mp hq with ⟨x, hx, rfl⟩
    rw [List.mem_range] at hy hx
    exact ⟨hy, hx⟩
  · rintro ⟨h1, h2⟩
    refine ⟨q.1, List.mem_range.mpr h1, List.mem_map.mpr ⟨q.2, List.mem_range.mpr h2, ?_⟩⟩
    rfl

lemma maskAt_true_mem_coords {img : Img} {q : ℕ × ℕ} (h : maskAt img q = true) :
    q ∈ coordsOf img := by
  by_contra hq
  have hpix : pixelAt img q = (0, 0, 0) := by
    unfold pixelAt
    rcases Nat.lt_or_ge q.1 img.length with h1 | h1
    · rcases Nat.lt_or_ge q.2 (img.getD q.1 []).length with h2 | h2
      · exact absurd (mem_coordsOf.mpr ⟨h1, h2⟩) hq
      · exact List.getD_eq_default _ _ h2
    · rw [List.getD_eq_default _ _ h1]
      rfl
  unfold maskAt at h
  rw [hpix] at h
  norm_num [lumProxy] at h

lemma labels_const_of_conn {img : Img} {labels : ℕ × ℕ → ℕ}
    (hb : ∀ p q, maskAt img p = true → maskAt img q = true → Adjacent p q →
      labels p = labels q)
    {p q : ℕ × ℕ} (h : ConnIn img p q) : labels p = labels q := by
  induction h with
  | refl => rfl
  | tail _ hstep ih => exact ih.trans (hb _ _ hstep.1 hstep.2.1 hstep.2.2)

lemma componentPts_iff {img : Img} {labels : ℕ × ℕ → ℕ} {n : ℕ}
    (hL : IsComponentLabeling img labels n) {p : ℕ × ℕ} (hp : maskAt img p = true) :
    ∀ q, q ∈ componentPts img labels p ↔ (maskAt img q = true ∧ ConnIn img p q) := by
  obtain ⟨ha, _, hb, hc⟩ := hL
  intro q
  constructor
  · intro hq
    rcases List.mem_filter.mp hq with ⟨_, hbeq⟩
    have hlab : labels q = labels p := by simpa using hbeq
    have hp0 : labels p ≠ 0 := (ha p).mpr hp
    have hq0 : labels q ≠ 0 := by rw [hlab]; exact hp0
    exact ⟨(ha q).mp hq0, hc p q hlab.symm hp0⟩
  · rintro ⟨hmq, hconn⟩
    apply List.mem_filter.mpr
    refine ⟨maskAt_true_mem_coords hmq, ?_⟩
    have hlab : labels p = labels q := labels_const_of_conn hb hconn
    simp [hlab]

/-- The specification side of claim C6: the detector output is sorted by
top edge; its members are exactly the bounding boxes of the 4-connected
components of the bright mask that pass all three filters; and a fully dark
image yields the empty sequence. -/
def BarBoxesSpec (img : Img) (labels : ℕ × ℕ → ℕ) (n : ℕ) : Prop :=
  List.Sorted boxLE (find_bar_boxes img labels n) ∧
  (∀ b, b ∈ find_bar_boxes img labels n ↔
    ∃ p, maskAt img p = true ∧
      (∀ q, q ∈ componentPts img labels p ↔ (maskAt img q = true ∧ ConnIn img p q)) ∧
      b = bboxOf (componentPts img labels p) ∧ keepBox b = true) ∧
  ((∀ p, maskAt img p = false) → find_bar_boxes img labels n = [])

/-- Claim C6: for every image and every valid 4-connected-component
labeling of its bright mask, `find_bar_boxes` returns exactly the bounding
boxes of the components passing the minimum-area, aspect-ratio and
minimum-height filters, sorted ascending by top-edge y, and returns the
empty sequence (rather than raising) when no component passes — in
particular on a fully dark image. -/
theorem c6_find_bar_boxes (img : Img) (labels : ℕ × ℕ → ℕ) (n : ℕ)
    (hL : IsComponentLabeling img labels n) : BarBoxesSpec img labels n := by
  obtain ⟨ha, hd, hb, hc⟩ := hL
  refine ⟨?_, ?_, ?_⟩
  · exact List.sorted_insertionSort boxLE _
  · intro b
    unfold find_bar_boxes
    simp only [List.mem_insertionSort, List.mem_filterMap]
    constructor
    · rintro ⟨k, hk, hfk⟩
      by_cases he : ((coordsOf img).filter (fun q => labels q == k)).isEmpty
      · rw [if_pos he] at hfk
        exact absurd hfk (by simp)
      · rw [if_neg he] at hfk
        by_cases hkeep : keepBox (bboxOf ((coordsOf img).filter (fun q => labels q == k))) = true
        · rw [if_pos hkeep] at hfk
          have hbb := Option.some.inj hfk
          have hne : ((coordsOf img).filter (fun q => labels q == k)) ≠ [] := by
            intro hnil
            rw [hnil] at he
            exact he rfl
          obtain ⟨p0, hp0⟩ := List.exists_mem_of_ne_nil _ hne
          rcases List.mem_filter.mp hp0 with ⟨hp0c, hp0beq⟩
          have hlab : labels p0 = k := by simpa using hp0beq
          have hk1 : 1 ≤ k := by
            rcases List.mem_range'.mp hk with ⟨i, _, rfl⟩
            omega
          have hp0ne : labels p0 ≠ 0 := by omega
          have hmask : maskAt img p0 = true := (ha p0).mp hp0ne
          have hpts : componentPts img labels p0 =
              (coordsOf img).filter (fun q => labels q == k) := by
            unfold componentPts
            rw [hlab]
          refine ⟨p0, hmask, componentPts_iff ⟨ha, hd, hb, hc⟩ hmask, ?_, ?_⟩
          · rw [hpts, hbb]
          · rw [hbb] at hkeep
            exact hkeep
        · rw [if_neg hkeep] at hfk
          exact absurd hfk (by simp)
    · rintro ⟨p, hmp, _, hbb, hkeep⟩
      refine ⟨labels p, ?_, ?_⟩
      · have h0 : labels p ≠ 0 := (ha p).mpr hmp
        have hn : labels p ≤ n := hd p
        exact List.mem_range'.mpr ⟨labels p - 1, by omega, by omega⟩
      · have hpin : p ∈ componentPts img labels p := by
          apply List.mem_filter.mpr
          exact ⟨maskAt_true_mem_coords hmp, by simp⟩
        have he : ¬ (componentPts img labels p).isEmpty = true := by
          rw [List.isEmpty_iff]
          exact List.ne_nil_of_mem hpin
        show (if (componentPts img labels p).isEmpty then none
          else if keepBox (bboxOf (componentPts img labels p))
            then some (bboxOf (componentPts img labels p)) else none) = some b
        rw [if_neg he, if_pos (by rw [← hbb]; exact hkeep), ← hbb]
  · intro hdark
    unfold find_bar_boxes
    have hboxes : (List.range' 1 n).filterMap (fun k =>
        let pts := (coordsOf img).filter (fun q => labels q == k)
        if pts.isEmpty then none
        else if keepBox (bboxOf pts) then some (bboxOf pts) else none) = [] := by
      apply List.filterMap_eq_nil_iff.mpr
      intro k hk
      have hk1 : 1 ≤ k := by
        rcases List.mem_range'.mp hk with ⟨i, _, rfl⟩
        omega
      have hpts : ((coordsOf img).filter (fun q => labels q == k)) = [] := by
        apply List.filter_eq_nil_iff.mpr
        intro q _
        have h0 : labels q = 0 := by
          by_contra hq0
          have hmq := (ha q).mp hq0
          rw [hdark q] at hmq
          exact absurd hmq (by simp)
        simp [h0]
        omega
      simp only [hpts]
      rfl
    rw [hboxes]
    rfl

/-- A fully dark 2x2 image. -/
def darkImg : Img := [[(0, 0, 0), (0, 0, 0)], [(0, 0, 0), (0, 0, 0)]]

lemma pixelAt_darkImg : ∀ p : ℕ × ℕ, pixelAt darkImg p = (0, 0, 0) := by
  rintro ⟨y, x⟩
  match y, x with
  | 0, 0 => rfl
  | 0, 1 => rfl
  | 0, _ + 2 => rfl
  | 1, 0 => rfl
  | 1, 1 => rfl
  | 1, _ + 2 => rfl
  | _ + 2, _ => rfl

lemma maskAt_darkImg (p : ℕ × ℕ) : maskAt darkImg p = false := by
  unfold maskAt
  rw [pixelAt_darkImg]
  have h : lumProxy (0, 0, 0) = 0 := by norm_num [lumProxy]
  rw [h]
  simp only [decide_eq_false_iff_not]
  norm_num

lemma darkLabeling : IsComponentLabeling darkImg (fun _ => 0) 0 := by
  refine ⟨?_, ?_, ?_, ?_⟩
  · intro p
    simp [maskAt_darkImg p]
  · intro p
    simp
  · intro p q hp _ _
    rw [maskAt_darkImg p] at hp
  · intro p q _ h0
    exact absurd rfl h0

/-- Witness for C6: the all-dark image with the all-zero labeling satisfies
the labeling contract, and the detector returns the empty sequence on it. -/
theorem c6_find_bar_boxes_witness :
    IsComponentLabeling darkImg (fun _ => 0) 0 ∧
    BarBoxesSpec darkImg (fun _ => 0) 0 ∧
    find_bar_boxes darkImg (fun _ => 0) 0 = [] :=
  ⟨darkLabeling, c6_find_bar_boxes _ _ _ darkLabeling,
    (c6_find_bar_boxes _ _ _ darkLabeling).2.2 maskAt_darkImg⟩

/-! ## Batch orchestrators

`check_all_themes` exists in two variants.  The legacy variant
(`src/check_contrast.py` lines 108-175) wraps the analysis of each theme in
`try/except`, recording sentinel contrast `-1` and background `(0,0,0)` on
failure, and continues with the next theme.  The scripts variant
(`src/scripts/check_contrast.py` lines 82-156) runs
`estimate_bg_and_text` / `contrast_ratio` with no exception handler and
flushes the full result list to the classification store every
`BATCH_SIZE` themes (and at the end of the run).

The external per-theme effects — `write_theme`, the settle delay,
`capture_region`, the PIL image load, and the analysis of the captured
pixels — are modeled by an `oracle` giving each theme's analysis outcome;
`none` models an exception raised during the estimate/score phase. -/

/-- One theme: category, name and hex color, as iterated by both
orchestrators from `load_themes()`. -/
structure ThemeEntry where
  category : String
  name : String
  hex : String
deriving DecidableEq, Repr

/-- `TEXT_COLOR = (255, 255, 255)` of `src/check_contrast.py` line 29. -/
def TEXT_COLOR : ℕ × ℕ × ℕ := (255, 255, 255)

/-- `BATCH_SIZE = 5` (line 14 resp. 16 of the two orchestrators). -/
def BATCH_SIZE : ℕ := 5

/-- A result record of the legacy orchestrator (`src/check_contrast.py`
lines 150-156): `{category, name, hex, contrast, bg_rgb}`. -/
structure RecordL where
  category : String
  name : String
  hex : String
  contrast : ℝ
  bg_rgb : ℕ × ℕ × ℕ

/-- Embeds the legacy `check_all_themes` loop (`src/check_contrast.py`
lines 119-157).  The oracle models `get_dominant_color` applied to the
captured image; `none` models an exception inside the `try` block, on which
the source records `ratio = -1` and `bg = (0, 0, 0)` and continues. -/
noncomputable def check_all_themes_legacy
    (oracle : ThemeEntry → Option (ℕ × ℕ × ℕ)) : List ThemeEntry → List RecordL
  | [] => []
  | t :: rest =>
      (match oracle t with
       | some bg =>
           { category := t.category, name := t.name, hex := t.hex,
             contrast := contrastRatioLegacy bg TEXT_COLOR, bg_rgb := bg }
       | none =>
           { category := t.category, name := t.name, hex := t.hex,
             contrast := -1, bg_rgb := (0, 0, 0) }) ::
      check_all_themes_legacy oracle rest

lemma one_le_contrastRatioLegacy (a b : ℕ × ℕ × ℕ) :
    1 ≤ contrastRatioLegacy a b := by
  unfold contrastRatioLegacy
  have h1 := relative_luminance_legacy_nonneg a
  have h2 := relative_luminance_legacy_nonneg b
  have hmin : (0 : ℝ) ≤ min (relative_luminance_legacy a) (relative_luminance_legacy b) :=
    le_min h1 h2
  have hmm : min (relative_luminance_legacy a) (relative_luminance_legacy b) ≤
      max (relative_luminance_legacy a) (relative_luminance_legacy b) := min_le_max
  rw [le_div_iff₀ (by linarith)]
  linarith

/-- Claim C1 (amended): every record of the legacy batch orchestrator has
contrast at least `1.0`, except failure-path records, which carry the
sentinel contrast `-1` (which is below `1.0`) together with the zeroed
background color. -/
theorem c1_record_contrast_amended (oracle : ThemeEntry → Option (ℕ × ℕ × ℕ))
    (themes : List ThemeEntry) :
    ∀ r ∈ check_all_themes_legacy oracle themes,
      1 ≤ r.contrast ∨ (r.contrast = -1 ∧ r.bg_rgb = (0, 0, 0)) := by
  induction themes with
  | nil =>
    intro r hr
    simp [check_all_themes_legacy] at hr
  | cons t rest ih =>
    intro r hr
    simp only [check_all_themes_legacy] at hr
    rcases List.mem_cons.mp hr with h | h
    · rcases ho : oracle t with _ | bg
      · rw [ho] at h
        simp only at h
        right
        rw [h]
        exact ⟨rfl, rfl⟩
      · rw [ho] at h
        simp only at h
        left
        rw [h]
        exact one_le_contrastRatioLegacy bg TEXT_COLOR
    · exact ih r h

/-- A concrete theme used in witnesses and counterexamples. -/
def sampleTheme : ThemeEntry := ⟨"ui", "blue", "#0000ff"⟩

/-- A second concrete theme. -/
def sampleTheme2 : ThemeEntry := ⟨"ui", "red", "#ff0000"⟩

/-- The oracle that fails on every theme (analysis always raises). -/
def failOracleL : ThemeEntry → Option (ℕ × ℕ × ℕ) := fun _ => none

/-- The oracle whose dominant-color analysis always yields `(0, 130, 0)`. -/
def greenOracleL : ThemeEntry → Option (ℕ × ℕ × ℕ) := fun _ => some (0, 130, 0)

/-- Counterexample to claim C1 as stated: on the failure path the legacy
orchestrator records contrast `-1`, which is not at least `1.0`. -/
theorem c1_record_contrast_counterexample :
    (check_all_themes_legacy failOracleL [sampleTheme]).map RecordL.contrast = [-1] ∧
    ¬ (1 : ℝ) ≤ (-1 : ℝ) := by
  constructor
  · simp [check_all_themes_legacy, failOracleL]
  · norm_num

/-- The success-path record produced for `sampleTheme` under
`greenOracleL`. -/
noncomputable def greenRecord : RecordL :=
  { category := sampleTheme.category, name := sampleTheme.name, hex := sampleTheme.hex,
    contrast := contrastRatioLegacy (0, 130, 0) TEXT_COLOR, bg_rgb := (0, 130, 0) }

/-- Witness for C1 (amended) on a concrete successful one-theme run. -/
theorem c1_record_contrast_amended_witness :
    greenRecord ∈ check_all_themes_legacy greenOracleL [sampleTheme] ∧
    (1 ≤ greenRecord.contrast ∨
      (greenRecord.contrast = -1 ∧ greenRecord.bg_rgb = (0, 0, 0))) := by
  have hmem : greenRecord ∈ check_all_themes_legacy greenOracleL [sampleTheme] := by
    simp [check_all_themes_legacy, greenOracleL, greenRecord]
  exact ⟨hmem, c1_record_contrast_amended greenOracleL [sampleTheme] greenRecord hmem⟩

/-- Junk defaults for indexed access in theorem statements. -/
def junkTheme : ThemeEntry := ⟨"", "", ""⟩

/-- Junk record default for indexed access in theorem statements. -/
noncomputable def junkRecordL : RecordL := ⟨"", "", "", 0, (0, 0, 0)⟩

/-- Claim C3 (amended), legacy part: the legacy orchestrator records one
result per theme — on an analysis exception the record carries sentinel
contrast `-1` and background `(0,0,0)` and the run continues, and on
success the record carries the computed ratio and background. -/
theorem c3_failure_isolated_amended (oracle : ThemeEntry → Option (ℕ × ℕ × ℕ))
    (themes : List ThemeEntry) :
    (check_all_themes_legacy oracle themes).length = themes.length ∧
    ∀ i, i < themes.length →
      (oracle (themes.getD i junkTheme) = none →
        ((check_all_themes_legacy oracle themes).getD i junkRecordL).contrast = -1 ∧
        ((check_all_themes_legacy oracle themes).getD i junkRecordL).bg_rgb = (0, 0, 0)) ∧
      (∀ c, oracle (themes.getD i junkTheme) = some c →
        ((check_all_themes_legacy oracle themes).getD i junkRecordL).contrast =
          contrastRatioLegacy c TEXT_COLOR ∧
        ((check_all_themes_legacy oracle themes).getD i junkRecordL).bg_rgb = c) := by
  induction themes with
  | nil =>
    refine ⟨rfl, ?_⟩
    intro i hi
    exact absurd hi (by simp)
  | cons t rest ih =>
    constructor
    · simp only [check_all_themes_legacy, List.length_cons]
      rw [ih.1]
    · intro i hi
      match i with
      | 0 =>
        constructor
        · intro ho
          rw [List.getD_cons_zero] at ho
          simp [check_all_themes_legacy, ho]
        · intro c hc
          rw [List.getD_cons_zero] at hc
          simp [check_all_themes_legacy, hc]
      | i + 1 =>
        have hi' : i < rest.length := by
          simpa using hi
        have := ih.2 i hi'
        simpa [check_all_themes_legacy] using this

/-- Witness for C3 (amended): a concrete one-theme run whose analysis
fails still yields a record, with sentinel contrast and zeroed color. -/
theorem c3_failure_isolated_amended_witness :
    (0 : ℕ) < ([sampleTheme] : List ThemeEntry).length ∧
    failOracleL (([sampleTheme] : List ThemeEntry).getD 0 junkTheme) = none ∧
    ((check_all_themes_legacy failOracleL [sampleTheme]).getD 0 junkRecordL).contrast = -1 ∧
    ((check_all_themes_legacy failOracleL [sampleTheme]).getD 0 junkRecordL).bg_rgb = (0, 0, 0) := by
  have h := ((c3_failure_isolated_amended failOracleL [sampleTheme]).2 0 (by simp)).1 rfl
  exact ⟨by simp, rfl, h.1, h.2⟩

/-- A result record of the scripts orchestrator
(`src/scripts/check_contrast.py` lines 127-135):
`{category, name, hex, contrast, status, bg_rgb, text_rgb}`. -/
structure RecordS where
  category : String
  name : String
  hex : String
  contrast : ℝ
  status : String
  bg_rgb : ℤ × ℤ × ℤ
  text_rgb : ℤ × ℤ × ℤ

/-- Cast a rational pixel to the real color space. -/
noncomputable def pixReal (p : Pix) : ℝ × ℝ × ℝ := ((p.1 : ℝ), (p.2.1 : ℝ), (p.2.2 : ℝ))

/-- `[int(x) for x in bg]` (lines 133-134); the estimator outputs are
nonnegative, where Python `int` truncation agrees with the floor. -/
def pixInt (p : Pix) : ℤ × ℤ × ℤ := (⌊p.1⌋, ⌊p.2.1⌋, ⌊p.2.2⌋)

/-- The record built at lines 122-135 from the estimated background and
text colors of one captured theme. -/
noncomputable def mkRecordS (t : ThemeEntry) (bg tx : Pix) : RecordS :=
  { category := t.category, name := t.name, hex := t.hex,
    contrast := contrastRatio (pixReal bg) (pixReal tx),
    status := get_status (contrastRatio (pixReal bg) (pixReal tx)),
    bg_rgb := pixInt bg, text_rgb := pixInt tx }

/-- Embeds the scripts `check_all_themes` loop
(`src/scripts/check_contrast.py` lines 93-153).  The oracle models
capture + `estimate_bg_and_text` for one theme; `none` models an exception
there, which this variant does not catch: the loop stops, the partial
result list is lost (`Option.none` in the second component), and no
further flush happens.  The first component is the trace of classification
store contents written at lines 143-144, one entry per flush (`count %
BATCH_SIZE == 0 or count == total`). -/
noncomputable def check_all_themes_loop
    (oracle : ThemeEntry → Option (Pix × Pix)) (total : ℕ) :
    List ThemeEntry → ℕ → List RecordS → List (List RecordS) →
    List (List RecordS) × Option (List RecordS)
  | [], _, results, flushes => (flushes, some results)
  | t :: rest, count, results, flushes =>
      match oracle t with
      | none => (flushes, none)
      | some (bg, tx) =>
          let results2 := results ++ [mkRecordS t bg tx]
          let flushes2 :=
            if (count + 1) % BATCH_SIZE = 0 ∨ count + 1 = total
            then flushes ++ [results2] else flushes
          check_all_themes_loop oracle total rest (count + 1) results2 flushes2

/-- The scripts orchestrator over a flat theme list (`total = sum of
category sizes` is the length of the flattened list). -/
noncomputable def check_all_themes (oracle : ThemeEntry → Option (Pix × Pix))
    (themes : List ThemeEntry) : List (List RecordS) × Option (List RecordS) :=
  check_all_themes_loop oracle themes.length themes 0 [] []

/-- The oracle on which every estimate raises. -/
def failOracleS : ThemeEntry → Option (Pix × Pix) := fun _ => none

/-- Counterexample to claim C3 as stated: the scripts orchestrator has no
exception handler around the estimate/score phase, so a failing first
theme aborts the whole batch — no record is produced for it (the run
returns no result list) and the second theme is never processed, leaving
no flush at all. -/
theorem c3_failure_isolated_counterexample :
    (check_all_themes failOracleS [sampleTheme, sampleTheme2]).2 = none ∧
    (check_all_themes failOracleS [sampleTheme, sampleTheme2]).1 = [] := by
  constructor <;> simp [check_all_themes, check_all_themes_loop, failOracleS]

/-- The identifying fields of a theme. -/
def projTheme (t : ThemeEntry) : String × String × String := (t.category, t.name, t.hex)

/-- The identifying fields of a scripts record. -/
def projRecordS (r : RecordS) : String × String × String := (r.category, r.name, r.hex)

/-- The number of themes the scripts orchestrator processes: the length of
the longest all-successful prefix (processing stops at the first analysis
exception). -/
def successLen (oracle : ThemeEntry → Option (Pix × Pix)) : List ThemeEntry → ℕ
  | [] => 0
  | t :: rest =>
      match oracle t with
      | none => 0
      | some _ => successLen oracle rest + 1

/-- The records the scripts orchestrator accumulates: one `mkRecordS` per
theme of the all-successful prefix, in processing order. -/
noncomputable def recordsOf (oracle : ThemeEntry → Option (Pix × Pix)) :
    List ThemeEntry → List RecordS
  | [] => []
  | t :: rest =>
      match oracle t with
      | none => []
      | some (bg, tx) => mkRecordS t bg tx :: recordsOf oracle rest

/-- The counts at which the store is flushed (`count % BATCH_SIZE == 0 or
count == total`, line 141), restricted to the themes actually processed. -/
def flushCounts (oracle : ThemeEntry → Option (Pix × Pix)) (themes : List ThemeEntry) :
    List ℕ :=
  (List.range' 1 (successLen oracle themes)).filter
    (fun c => decide (c % BATCH_SIZE = 0 ∨ c = themes.length))

lemma recordsOf_append (oracle : ThemeEntry → Option (Pix × Pix)) {l1 : List ThemeEntry}
    (l2 : List ThemeEntry) (h : ∀ t ∈ l1, (oracle t).isSome) :
    recordsOf oracle (l1 ++ l2) = recordsOf oracle l1 ++ recordsOf oracle l2 := by
  induction l1 with
  | nil => simp [recordsOf]
  | cons t rest ih =>
    have ht : (oracle t).isSome := h t (by simp)
    rcases ho : oracle t with _ | ⟨bg, tx⟩
    · rw [ho] at ht
      simp at ht
    · simp only [List.cons_append, recordsOf, ho]
      show mkRecordS t bg tx :: recordsOf oracle (rest ++ l2) =
        mkRecordS t bg tx :: (recordsOf oracle rest ++ recordsOf oracle l2)
      rw [ih (fun s hs => h s (by simp [hs]))]

lemma take_append_succ (done : List ThemeEntry) (t : ThemeEntry) (rest : List ThemeEntry) :
    (done ++ t :: rest).take (done.length + 1) = done ++ [t] := by
  rw [List.take_append_eq_append_take, List.take_of_length_le (by omega)]
  simp

/-- The whole flush trace of the loop, relative to an all-successful list
`done` of already-processed themes: every flush that happens from here on
writes the full record list of the first `c` processed themes, at exactly
the counts `c` satisfying the flush condition. -/
lemma check_all_themes_loop_trace (oracle : ThemeEntry → Option (Pix × Pix)) (total : ℕ) :
    ∀ (rest done : List ThemeEntry) (flushes : List (List RecordS))
      (count : ℕ) (results : List RecordS),
      count = done.length →
      results = recordsOf oracle done →
      (∀ t ∈ done, (oracle t).isSome) →
      (check_all_themes_loop oracle total rest count results flushes).1 =
        flushes ++ ((List.range' (count + 1) (successLen oracle rest)).filter
            (fun c => decide (c % BATCH_SIZE = 0 ∨ c = total))).map
          (fun c => recordsOf oracle ((done ++ rest).take c)) := by
  intro rest
  induction rest with
  | nil =>
    intro done flushes count results _ _ _
    simp [check_all_themes_loop, successLen]
  | cons t rest ih =>
    intro done flushes count results hcount hres hdone
    rcases ho : oracle t with _ | ⟨bg, tx⟩
    · simp only [check_all_themes_loop, ho]
      simp [successLen, ho]
    · simp only [check_all_themes_loop, ho]
      have hrec : results ++ [mkRecordS t bg tx] = recordsOf oracle (done ++ [t]) := by
        rw [hres, recordsOf_append oracle [t] hdone]
        simp [recordsOf, ho]
      have hdone2 : ∀ s ∈ done ++ [t], (oracle s).isSome := by
        intro s hs
        rcases List.mem_append.mp hs with hs | hs
        · exact hdone s hs
        · rw [List.mem_singleton] at hs
          subst hs
          rw [ho]
          rfl
      rw [ih (done ++ [t]) _ (count + 1) (results ++ [mkRecordS t bg tx])
        (by simp [hcount]) hrec hdone2]
      have hlist : (done ++ [t]) ++ rest = done ++ t :: rest := by simp
      rw [hlist]
      have hsucc : successLen oracle (t :: rest) = successLen oracle rest + 1 := by
        simp [successLen, ho]
      rw [hsucc, List.range'_succ]
      by_cases hcond : (count + 1) % BATCH_SIZE = 0 ∨ count + 1 = total
      · rw [if_pos hcond, List.filter_cons_of_pos (by simpa using hcond)]
        simp only [List.map_cons]
        rw [hcount, take_append_succ, ← hcount, hrec]
        simp
      · rw [if_neg hcond, List.filter_cons_of_neg (by simpa using hcond)]

/-- One record per processed theme: taking any prefix of the successful
prefix, the accumulated store has exactly one record per theme, in
processing order. -/
lemma recordsOf_take_exact (oracle : ThemeEntry → Option (Pix × Pix)) :
    ∀ (themes : List ThemeEntry) (c : ℕ), c ≤ successLen oracle themes →
      (recordsOf oracle (themes.take c)).length = c ∧
      (recordsOf oracle (themes.take c)).map projRecordS = (themes.take c).map projTheme := by
  intro themes
  induction themes with
  | nil =>
    intro c hc
    simp only [successLen, Nat.le_zero] at hc
    subst hc
    simp [recordsOf]
  | cons t rest ih =>
    intro c hc
    rcases ho : oracle t with _ | ⟨bg, tx⟩
    · simp only [successLen, ho, Nat.le_zero] at hc
      subst hc
      simp [recordsOf]
    · match c with
      | 0 => simp [recordsOf]
      | c + 1 =>
        simp only [successLen, ho, Nat.add_le_add_iff_right] at hc
        have h := ih c hc
        simp only [List.take_succ_cons, recordsOf, ho, List.length_cons, List.map_cons]
        exact ⟨by rw [h.1], by rw [h.2]; rfl⟩

/-- Claim C9: the classification-store flush trace is exactly one store per
flush point (each count that is a multiple of `BATCH_SIZE` plus the end of
the run, within the processed prefix), and the store flushed at count `c`
holds exactly the records of the first `c` processed themes: its length
equals the count of themes processed so far — never fewer and never more —
in processing order. -/
theorem c9_flush_store_exact (oracle : ThemeEntry → Option (Pix × Pix))
    (themes : List ThemeEntry) :
    (check_all_themes oracle themes).1 =
      (flushCounts oracle themes).map (fun c => recordsOf oracle (themes.take c)) ∧
    ∀ c ∈ flushCounts oracle themes,
      (recordsOf oracle (themes.take c)).length = c ∧
      (recordsOf oracle (themes.take c)).map projRecordS = (themes.take c).map projTheme := by
  constructor
  · have h := check_all_themes_loop_trace oracle themes.length themes [] [] 0 []
      rfl (by simp [recordsOf]) (by simp)
    simpa [check_all_themes, flushCounts] using h
  · intro c hc
    rcases List.mem_filter.mp hc with ⟨hcr, _⟩
    have hcm : c ≤ successLen oracle themes := by
      rcases List.mem_range'.mp hcr with ⟨i, hi, rfl⟩
      omega
    exact recordsOf_take_exact oracle themes c hcm

/-- The oracle whose estimate always returns black background and white
text. -/
def bwOracleS : ThemeEntry → Option (Pix × Pix) :=
  fun _ => some (((0 : ℚ), (0 : ℚ), (0 : ℚ)), ((255 : ℚ), (255 : ℚ), (255 : ℚ)))

/-- Witness for C9: a concrete one-theme run flushes exactly once, at count
1 (= total), and that store holds exactly the one processed theme's
record. -/
theorem c9_flush_store_exact_witness :
    (check_all_themes bwOracleS [sampleTheme]).1 =
      (flushCounts bwOracleS [sampleTheme]).map
        (fun c => recordsOf bwOracleS (([sampleTheme] : List ThemeEntry).take c)) ∧
    (1 : ℕ) ∈ flushCounts bwOracleS [sampleTheme] ∧
    (recordsOf bwOracleS (([sampleTheme] : List ThemeEntry).take 1)).length = 1 ∧
    (recordsOf bwOracleS (([sampleTheme] : List ThemeEntry).take 1)).map projRecordS =
      (([sampleTheme] : List ThemeEntry).take 1).map projTheme := by
  have hmem : (1 : ℕ) ∈ flushCounts bwOracleS [sampleTheme] := by
    simp [flushCounts, successLen, bwOracleS, BATCH_SIZE]
  have h := c9_flush_store_exact bwOracleS [sampleTheme]
  exact ⟨h.1, hmem, (h.2 1 hmem).1, (h.2 1 hmem).2⟩

/-! ## Persistence of the classification store (claim C2)

At each flush the scripts orchestrator writes the store with
`open(CLASSIFICATIONS_PATH, "w")` followed by `json.dump(results, f)`
(lines 143-144).  Opening with mode `"w"` truncates the file in place
before any byte of the new content is written, so the sequence of states
the store file passes through during one flush is: the previous content,
then a truncated (partially written) file, then the full new content.
There is no write-to-temporary-then-rename step anywhere in the source. -/

/-- The observable content of the classification store file: either a fully
written record list, or the truncated / partially written state that exists
between opening with mode `"w"` and the completion of `json.dump`. -/
inductive StoreState where
  | content : List RecordS → StoreState
  | truncated : StoreState

/-- The states the store file passes through during one flush, embedding
`open(path, "w")` + `json.dump(results, f)` of lines 143-144. -/
def flushStates (old : StoreState) (results : List RecordS) : List StoreState :=
  [old, StoreState.truncated, StoreState.content results]

/-- Atomic-replace semantics in the spec's words: every state visible during
the flush is either the old full content or the new full content. -/
def atomicReplaceVisible (old : StoreState) (results : List RecordS)
    (states : List StoreState) : Prop :=
  ∀ s ∈ states, s = old ∨ s = StoreState.content results

/-- Claim C2 (amended): at every flush the orchestrator overwrites the
classification store wholesale — the flush ends with the store holding
exactly the full result list — but it does so by truncating the file in
place, so a truncated (partially written) store state is visible during
the flush. -/
theorem c2_flush_overwrite_amended (old : StoreState) (results : List RecordS) :
    (flushStates old results).getLast? = some (StoreState.content results) ∧
    StoreState.truncated ∈ flushStates old results ∧
    (flushStates old results).head? = some old := by
  refine ⟨rfl, ?_, rfl⟩
  simp [flushStates]

/-- A concrete record for the C2 counterexample. -/
noncomputable def recA : RecordS :=
  { category := "ui", name := "blue", hex := "#0000ff", contrast := 1, status := "BAD",
    bg_rgb := (0, 0, 0), text_rgb := (0, 0, 0) }

/-- Counterexample to claim C2 as stated: the flush write is not
atomic-replace — during a flush that overwrites a previously written
(empty) store with one result, the truncated in-place state is visible,
and it is neither the old nor the new store content. -/
theorem c2_flush_overwrite_counterexample :
    ¬ atomicReplaceVisible (StoreState.content []) [recA]
        (flushStates (StoreState.content []) [recA]) := by
  intro h
  rcases h StoreState.truncated (by simp [flushStates]) with h1 | h1 <;>
    exact absurd h1 (by simp)
